import Mathlib

/-!
Verification development for the `react-clean-architecture` repository.

The development shallowly embeds the two cores of the repository:

* the debounced counter use cases (`incrementCounterUseCase`,
  `decrementCounterUseCase`) together with the simulated remote
  `counterService`, and
* the generic JSON HTTP client (`toQueryString`, `fetchJSON`).

Timers are modelled by explicit virtual time in milliseconds; promises are
modelled denotationally, by the settlement they eventually produce.
-/

namespace Counters

/-- The single domain entity: a counter value.  The repository represents it
as `{ value: number }`; decrementing is clamped so the value never goes below
zero, hence `Int` with the invariant `0 ≤ value` carried in theorems. -/
structure Counter where
  value : Int
deriving DecidableEq, Repr

/-- Modelled from the spec: `counterModel.create`, the pure factory building a
`Counter` from a primitive number (the file itself is not in `src/`; only the
use of it in `counterService` is). -/
def create (n : Int) : Counter := ⟨n⟩

/-- Modelled from the spec: `canDecrement` is derived as `value > 0`. -/
def canDecrement (c : Counter) : Bool := c.value > 0

/-- Which of the two use cases is being invoked. -/
inductive CallKind where
  | inc
  | dec
deriving DecidableEq, Repr

/-- Modelled from the spec: the next value computed by a use case —
`value + 1` for increment, `value - 1` for decrement, clamped so it never
goes below 0 (decrement is a no-op at 0, guarded by `canDecrement`). -/
def nextValue : CallKind → Int → Int
  | .inc, v => v + 1
  | .dec, v => if v > 0 then v - 1 else v

/-- The debounce window of the use cases (milliseconds). -/
def debounceWindow : Nat := 500

/-- The observable state of a run: the store's counter, the log of values
passed to `store.setCounter`, the log of `(time, value)` invocations of
`store.updateCounter`, and the pending debounce timer (deadline, value),
of which there is at most one. -/
structure SimState where
  counter : Counter
  setCalls : List Counter
  updateCalls : List (Nat × Counter)
  pending : Option (Nat × Counter)
deriving DecidableEq, Repr

/-- Initial state for a run starting from a store holding `v`. -/
def initState (v : Int) : SimState :=
  { counter := ⟨v⟩, setCalls := [], updateCalls := [], pending := none }

/-- If the pending debounce timer's deadline has been reached by time `t`, it
fires: `store.updateCounter` is invoked with the scheduled value and the timer
is cleared. -/
def firePending (t : Nat) (s : SimState) : SimState :=
  match s.pending with
  | some (d, c) =>
      if d ≤ t then
        { s with updateCalls := s.updateCalls ++ [(d, c)], pending := none }
      else s
  | none => s

/-- Modelled from the spec: one use-case call at virtual time `t`
(`incrementCounterUseCase` / `decrementCounterUseCase`, whose source files are
not in `src/`).  It reads the counter synchronously, computes the next value,
calls `store.setCounter` immediately, and schedules the remote persistence
after the debounce window, superseding any previously pending timer. -/
def applyCall (t : Nat) (k : CallKind) (s : SimState) : SimState :=
  let next := nextValue k s.counter.value
  { s with
    counter := ⟨next⟩
    setCalls := s.setCalls ++ [⟨next⟩]
    pending := some (t + debounceWindow, ⟨next⟩) }

/-- `incrementCounterUseCase(store)` invoked at virtual time `t`. -/
def incrementCounterUseCase (t : Nat) (s : SimState) : SimState :=
  applyCall t .inc s

/-- `decrementCounterUseCase(store)` invoked at virtual time `t`. -/
def decrementCounterUseCase (t : Nat) (s : SimState) : SimState :=
  applyCall t .dec s

/-- Run a list of timestamped calls (times are taken to be increasing): before
each call, any pending timer whose deadline has passed fires. -/
def runCalls (s : SimState) : List (Nat × CallKind) → SimState
  | [] => s
  | (t, k) :: rest => runCalls (applyCall t k (firePending t s)) rest

/-- After the last call, an unsuperseded pending timer eventually fires. -/
def finishPending (s : SimState) : SimState :=
  match s.pending with
  | some p => { s with updateCalls := s.updateCalls ++ [p], pending := none }
  | none => s

/-- Full run of a trace of use-case calls from a store holding `v`, with no
further calls after the trace (so the last pending timer fires). -/
def runTrace (v : Int) (calls : List (Nat × CallKind)) : SimState :=
  finishPending (runCalls (initState v) calls)

/-- The synchronous local view of a trace: the successive values passed to
`store.setCounter`, which depend only on the call kinds, never on timing. -/
def localTrace (v : Int) : List CallKind → List Int
  | [] => []
  | k :: ks => nextValue k v :: localTrace (nextValue k v) ks

/-- The deadline `d` is not preempted by the next call: either there is no
further call, or the next call arrives no earlier than `d`. -/
def NotBefore (d : Nat) : List (Nat × CallKind) → Prop
  | [] => True
  | (t, _) :: _ => d ≤ t

/-- `FiresIn d calls` holds when some call in `calls`, made at time `t` with
`d = t + debounceWindow`, is the last call or is followed by a call at time no
earlier than `d` — i.e. its scheduled persistence survives and fires. -/
def FiresIn (d : Nat) : List (Nat × CallKind) → Prop
  | [] => False
  | (t, _) :: rest => (d = t + debounceWindow ∧ NotBefore d rest) ∨ FiresIn d rest

end Counters

namespace CounterService

open Counters

/-- The simulated remote service resolves each call through a `setTimeout`
with this fixed delay (milliseconds). -/
def serviceDelay : Nat := 1000

/-- Result of one simulated service call: the delay before the promise
resolves, the module-level `count` afterwards, and the resolved `Counter`. -/
structure ServiceResult where
  delayMs : Nat
  newCount : Int
  resolved : Counter
deriving DecidableEq, Repr

/-- `getCounter()`: after a one-second delay, resolves with
`create(count)` and leaves the module-level `count` unchanged. -/
def getCounter (count : Int) : ServiceResult :=
  { delayMs := serviceDelay, newCount := count, resolved := create count }

/-- `updateCounter(counter)`: after a one-second delay, stores
`counter.value` into the module-level `count` and resolves with
`create(count)`. -/
def updateCounter (counter : Counter) (_count : Int) : ServiceResult :=
  { delayMs := serviceDelay
    newCount := counter.value
    resolved := create counter.value }

end CounterService

namespace FetchJSONLib

/-- Uppercase hexadecimal digit, as used by `encodeURIComponent`. -/
def hexDigitUpper (n : Nat) : Char :=
  if n < 10 then Char.ofNat (48 + n) else Char.ofNat (55 + n)

/-- Lowercase hexadecimal digit, as used by `JSON.stringify` escapes. -/
def hexDigitLower (n : Nat) : Char :=
  if n < 10 then Char.ofNat (48 + n) else Char.ofNat (87 + n)

/-- UTF-8 byte sequence of a Unicode code point. -/
def utf8Bytes (n : Nat) : List Nat :=
  if n < 128 then [n]
  else if n < 2048 then [192 + n / 64, 128 + n % 64]
  else if n < 65536 then [224 + n / 4096, 128 + (n / 64) % 64, 128 + n % 64]
  else [240 + n / 262144, 128 + (n / 4096) % 64, 128 + (n / 64) % 64, 128 + n % 64]

/-- Characters `encodeURIComponent` leaves unescaped:
`A-Z a-z 0-9 - _ . ! ~ * ( )` and the apostrophe (code 39). -/
def isURIUnescaped (c : Char) : Bool :=
  (65 ≤ c.toNat && c.toNat ≤ 90) || (97 ≤ c.toNat && c.toNat ≤ 122) ||
  (48 ≤ c.toNat && c.toNat ≤ 57) ||
  c = '-' || c = '_' || c = '.' || c = '!' || c = '~' || c = '*' ||
  c = '(' || c = ')' || c.toNat = 39

/-- Percent-escape of one byte, uppercase hex (`%20`, `%C3`, ...). -/
def percentByte (b : Nat) : String :=
  String.mk ['%', hexDigitUpper (b / 16), hexDigitUpper (b % 16)]

/-- JavaScript's `encodeURIComponent`: unescaped characters pass through, all
others are percent-escaped byte-wise in their UTF-8 encoding. -/
def encodeURIComponent (s : String) : String :=
  String.join (s.data.map fun c =>
    if isURIUnescaped c then String.singleton c
    else String.join ((utf8Bytes c.toNat).map percentByte))

/-- A value of the dictionary accepted by `toQueryString`:
`string | string[] | undefined`. -/
inductive QueryValue where
  | str (s : String)
  | list (xs : List String)
  | undef
deriving DecidableEq, Repr

/-- `[].concat(value)` for a defined `QueryValue`: a string becomes a
one-element list, a list stays itself (`undef` is filtered out before this
point in `toQueryString`). -/
def qvConcat : QueryValue → List String
  | .str s => [s]
  | .list xs => xs
  | .undef => []

/-- `Array.prototype.join("&")`. -/
def joinAmp : List String → String
  | [] => ""
  | [s] => s
  | s :: rest => s ++ "&" ++ joinAmp rest

/-- The inner helper of `toQueryString`:
`const parse = (list) => list.filter(Boolean).join("&")` — empty strings are
falsy and are dropped before joining. -/
def parse (l : List String) : String :=
  joinAmp (l.filter (fun s => s ≠ ""))

/-- The dictionary argument of `toQueryString`, as its entry list in
insertion order (`Object.entries`). -/
def QueryDict := List (String × QueryValue)

/-- The pair strings of one entry:
``.map((val) => `${encodeURIComponent(key)}=${encodeURIComponent(val)}`)``. -/
def pairStrings (key : String) (vals : List String) : List String :=
  vals.map (fun val => encodeURIComponent key ++ "=" ++ encodeURIComponent val)

/-- `toQueryString(obj)` from `to-query-string.ts`: entries with `undefined`
values are filtered out, each remaining entry is expanded to its
`key=value` pairs (both percent-encoded), and everything is joined by `&`. -/
def toQueryString (obj : QueryDict) : String :=
  parse
    ((obj.filter (fun e => e.2 ≠ QueryValue.undef)).map (fun e =>
      parse (pairStrings e.1 (qvConcat e.2))))

/-- The specification's reading of `toQueryString`: skip `undefined` entries,
expand list values to repeated `key=value` pairs in list order, percent-encode
keys and values, and join all pairs with `&`. -/
def toQueryStringSpec (obj : QueryDict) : String :=
  joinAmp (obj.flatMap (fun e => pairStrings e.1 (qvConcat e.2)))

/-- A JSON value (`JSONValue` from `types/json.ts`).  JavaScript numbers are
modelled by `Int`; the claims about `fetchJSON` only inspect numbers through
truthiness and serialization of integral literals, so the floating-point
aspect is irrelevant here. -/
inductive JSONValue where
  | null
  | bool (b : Bool)
  | num (n : Int)
  | str (s : String)
  | arr (elems : List JSONValue)
  | obj (fields : List (String × JSONValue))

/-- JavaScript truthiness of a JSON value: `null`, `false`, `0` and `""` are
falsy; every object and array (even empty) is truthy. -/
def JSONValue.truthy : JSONValue → Bool
  | .null => false
  | .bool b => b
  | .num n => n ≠ 0
  | .str s => s ≠ ""
  | .arr _ => true
  | .obj _ => true

/-- Structured data: a JSON object or array. -/
def JSONValue.isStructured : JSONValue → Bool
  | .arr _ => true
  | .obj _ => true
  | _ => false

/-- `JSON.stringify` escape of one character inside a string literal. -/
def escapeJSONChar (c : Char) : String :=
  if c.toNat = 34 then String.mk [Char.ofNat 92, Char.ofNat 34]
  else if c.toNat = 92 then String.mk [Char.ofNat 92, Char.ofNat 92]
  else if c.toNat = 8 then "\\b"
  else if c.toNat = 9 then "\\t"
  else if c.toNat = 10 then "\\n"
  else if c.toNat = 12 then "\\f"
  else if c.toNat = 13 then "\\r"
  else if c.toNat < 32 then
    "\\u00" ++ String.mk [hexDigitLower (c.toNat / 16), hexDigitLower (c.toNat % 16)]
  else String.singleton c

/-- `JSON.stringify` of a string: quoted, with characters escaped. -/
def stringifyString (s : String) : String :=
  "\"" ++ String.join (s.data.map escapeJSONChar) ++ "\""

/-- `Array.prototype.join(",")`. -/
def joinComma : List String → String
  | [] => ""
  | [s] => s
  | s :: rest => s ++ "," ++ joinComma rest

mutual

/-- `JSON.stringify` of a JSON value (no `undefined` occurs in our input
type, so every value serializes). -/
def JSONValue.stringify : JSONValue → String
  | .null => "null"
  | .bool true => "true"
  | .bool false => "false"
  | .num n => toString n
  | .str s => stringifyString s
  | .arr elems => "[" ++ joinComma (stringifyList elems) ++ "]"
  | .obj fields => "\x7b" ++ joinComma (stringifyFields fields) ++ "\x7d"

/-- Serializations of the elements of a JSON array. -/
def stringifyList : List JSONValue → List String
  | [] => []
  | v :: vs => v.stringify :: stringifyList vs

/-- Serializations of the fields of a JSON object. -/
def stringifyFields : List (String × JSONValue) → List String
  | [] => []
  | (k, v) :: fs => (stringifyString k ++ ":" ++ v.stringify) :: stringifyFields fs

end

/-- The arguments of `fetchJSON` that its request-building phase consumes:
`body`, `token` and `headers` from `FetchJSONProps`, plus the only member of
the `...customConfig` rest that the claims exercise, an explicit `method`
override (`queryParams` only affects the URL and is handled by
`toQueryString`). -/
structure FetchJSONProps where
  body : Option JSONValue := none
  token : Option String := none
  headers : List (String × String) := []
  method : Option String := none

/-- The parts of the `RequestInit` that `fetchJSON` hands to `fetch`. -/
structure RequestConfig where
  method : String
  body : Option String
  headers : List (String × String)

/-- The headers object `fetchJSON` builds internally before merging in the
caller's `customHeaders`: `Authorization` from `token`, then `Content-Type:
application/json` when a truthy body is serialized. -/
def builtHeaders (p : FetchJSONProps) : List (String × String) :=
  (match p.token with
   | some t => [("Authorization", "Bearer " ++ t)]
   | none => []) ++
  (match p.body with
   | some v => if v.truthy then [("Content-Type", "application/json")] else []
   | none => [])

/-- The object spread `{ ...headers, ...customHeaders }` as a key-value map:
a custom entry overrides a built entry with the same key.  (JavaScript keeps
the overridden key at its original position; only the key-to-value mapping
matters to the claims, and it is preserved here.) -/
def mergeHeaders (base custom : List (String × String)) : List (String × String) :=
  base.filter (fun b => custom.all (fun c => c.1 ≠ b.1)) ++ custom

/-- The request-building phase of `fetchJSON`: start from `{ method: "GET" }`,
serialize a truthy body with `JSON.stringify` forcing `POST` and a
`Content-Type: application/json` header, then let the caller's
`...customConfig` override the method. -/
def buildConfig (p : FetchJSONProps) : RequestConfig :=
  let bodyTruthy := match p.body with
    | some v => v.truthy
    | none => false
  { method := p.method.getD (if bodyTruthy then "POST" else "GET")
    body := match p.body with
      | some v => if v.truthy then some v.stringify else none
      | none => none
    headers := mergeHeaders (builtHeaders p) p.headers }

/-- The error objects produced by `buildFetchJSONError`: an `Error` whose
`message` is the constructor argument, carrying `status` and `statusText`
properties. -/
structure FetchJSONError where
  message : String
  status : Nat
  statusText : String
deriving DecidableEq, Repr

/-- `buildFetchJSONError(message, status, statusText)`. -/
def buildFetchJSONError (message : String) (status : Nat) (statusText : String) :
    FetchJSONError :=
  { message := message, status := status, statusText := statusText }

/-- `ERRORS.TAKE_TOO_LONG`. -/
def ERRORS.TAKE_TOO_LONG : String := "Request take too long to complete"

/-- `ERRORS.TIME_OUT`. -/
def ERRORS.TIME_OUT : String := "Request timeout"

/-- A settled `fetch` `Response`, as the `.then` continuation of `fetchJSON`
observes it: `status`/`statusText`, what `response.text()` resolves with,
what `response.json()` resolves with (`none` when the body is not valid JSON
and `response.json()` would reject), and `response.headers.get("content-type")`
(`none` when the header is absent). -/
structure HttpResponse where
  status : Nat
  statusText : String
  bodyText : String
  jsonBody : Option JSONValue
  contentType : Option String

/-- `Response.ok` of the Fetch standard: status in the inclusive range
200–299. -/
def HttpResponse.ok (r : HttpResponse) : Bool :=
  200 ≤ r.status && r.status ≤ 299

/-- `String.prototype.includes`: does `pat` occur as a contiguous substring
of the second list? -/
def containsSub (pat : List Char) : List Char → Bool
  | [] => pat.isEmpty
  | c :: rest => pat.isPrefixOf (c :: rest) || containsSub pat rest

/-- `contentType.includes("application/json")` guarded by the header being
present. -/
def HttpResponse.isJsonType (r : HttpResponse) : Bool :=
  match r.contentType with
  | some ct => containsSub "application/json".data ct.data
  | none => false

/-- The value `fetchJSON` attaches to the response as `parsedBody`. -/
inductive ParsedBody where
  | json (v : JSONValue)
  | text (s : String)

/-- Settlement of the promise returned by `fetchJSON`. -/
inductive FetchResult where
  | resolved (r : HttpResponse) (parsedBody : ParsedBody)
  | rejected (e : FetchJSONError)
  | rejectedNetwork (msg : String)
  | rejectedBodyParse

/-- The `.then` continuation of `fetchJSON` applied to a settled response:
a non-`ok` response rejects with the body text as message and the response's
`status`/`statusText`; an `ok` response is augmented with `parsedBody`,
parsed as JSON exactly when the `content-type` header indicates JSON and as
plain text otherwise. -/
def handleResponse (r : HttpResponse) : FetchResult :=
  if !r.ok then
    .rejected (buildFetchJSONError r.bodyText r.status r.statusText)
  else if r.isJsonType then
    match r.jsonBody with
    | some v => .resolved r (.json v)
    | none => .rejectedBodyParse
  else
    .resolved r (.text r.bodyText)

/-- Behaviour of the underlying `fetch(url, config)` call: it settles after
some delay — resolving with a response or rejecting with a transport error —
or it never settles. -/
inductive NetworkBehavior where
  | settles (afterMs : Nat) (outcome : Except String HttpResponse)
  | hangs

/-- Outcome of the race inside `new Promise(...)`: the timer is armed only
when `timeout !== undefined && timeout > 0`; whichever settles the promise
first wins (ties at the exact deadline go to the timer, which was registered
first; no claim exercises the tie).  `none` means the promise never settles
(no timer armed and the network hangs). -/
def raceResult (timeout : Option Int) (net : NetworkBehavior) :
    Option (Except FetchJSONError (Except String HttpResponse)) :=
  let timerWins : Bool := match timeout, net with
    | some t, .settles d _ => 0 < t && t ≤ (d : Int)
    | some t, .hangs => 0 < t
    | none, _ => false
  if timerWins then
    some (.error (buildFetchJSONError ERRORS.TAKE_TOO_LONG 408 ERRORS.TIME_OUT))
  else
    match net with
    | .settles _ outcome => some (.ok outcome)
    | .hangs => none

/-- Denotation of a whole `fetchJSON` call, given the behaviour of the
underlying network call: race the timer against `fetch`, then run the
response continuation.  A transport rejection propagates unmodified.  `none`
means the returned promise never settles. -/
def fetchJSONOutcome (timeout : Option Int) (net : NetworkBehavior) :
    Option FetchResult :=
  match raceResult timeout net with
  | none => none
  | some (.error e) => some (.rejected e)
  | some (.ok (.error msg)) => some (.rejectedNetwork msg)
  | some (.ok (.ok r)) => some (handleResponse r)

end FetchJSONLib

namespace FetchJSONLib

lemma app3_ne_empty (a b m : String) (hm : m.length = 1) : a ++ m ++ b ≠ "" := by
  intro h
  have hlen := congrArg String.length h
  rw [String.length_append, String.length_append, hm] at hlen
  have h0 : ("" : String).length = 0 := rfl
  omega

lemma joinAmp_cons_ne (x : String) (l : List String) (h : l ≠ []) :
    joinAmp (x :: l) = x ++ "&" ++ joinAmp l := by
  cases l with
  | nil => exact absurd rfl h
  | cons y ys => rfl

lemma joinAmp_ne_empty (l : List String) (hl : l ≠ []) (h : ∀ s ∈ l, s ≠ "") :
    joinAmp l ≠ "" := by
  match l with
  | [s] => simpa [joinAmp] using h s (by simp)
  | s :: t :: rest =>
      rw [joinAmp_cons_ne s (t :: rest) (by simp)]
      exact app3_ne_empty s (joinAmp (t :: rest)) "&" rfl

lemma joinAmp_append (a b : List String) (ha : a ≠ []) (hb : b ≠ []) :
    joinAmp (a ++ b) = joinAmp a ++ "&" ++ joinAmp b := by
  induction a with
  | nil => exact absurd rfl ha
  | cons x xs ih =>
      cases xs with
      | nil => rw [List.cons_append, List.nil_append, joinAmp_cons_ne x b hb]; rfl
      | cons y ys =>
          have hxs : (y :: ys : List String) ≠ [] := by simp
          rw [List.cons_append, joinAmp_cons_ne x ((y :: ys) ++ b) (by simp),
            ih hxs, joinAmp_cons_ne x (y :: ys) hxs]
          simp [String.append_assoc]

lemma mem_pairStrings_ne_empty (k : String) (vs : List String) :
    ∀ s ∈ pairStrings k vs, s ≠ "" := by
  intro s hs
  obtain ⟨v, _, rfl⟩ := List.mem_map.1 hs
  exact app3_ne_empty _ _ "=" rfl

lemma parse_eq_joinAmp (l : List String) (h : ∀ s ∈ l, s ≠ "") :
    parse l = joinAmp l := by
  unfold parse
  rw [List.filter_eq_self.2]
  intro a ha
  simpa using h a ha

lemma flatten_eq_nil_of_all_nil (pss : List (List String))
    (h : ∀ ps ∈ pss, ps = []) : pss.flatten = [] := by
  induction pss with
  | nil => rfl
  | cons ps pss ih =>
      rw [List.flatten_cons, h ps (by simp), List.nil_append]
      exact ih fun qs hqs => h qs (by simp [hqs])

lemma joinAmp_filter_map (pss : List (List String))
    (h : ∀ ps ∈ pss, ∀ s ∈ ps, s ≠ "") :
    joinAmp ((pss.map joinAmp).filter (fun s => s ≠ "")) = joinAmp pss.flatten := by
  induction pss with
  | nil => rfl
  | cons ps pss ih =>
      have hps : ∀ s ∈ ps, s ≠ "" := h ps (by simp)
      have hrest : ∀ qs ∈ pss, ∀ s ∈ qs, s ≠ "" := fun qs hqs => h qs (by simp [hqs])
      have ihr := ih hrest
      rw [List.map_cons, List.filter_cons, List.flatten_cons]
      cases hpse : ps with
      | nil => simpa using ihr
      | cons p ps' =>
          have hne : joinAmp ps ≠ "" := by
            rw [hpse] at hps ⊢
            exact joinAmp_ne_empty _ (by simp) hps
          rw [← hpse]
          have hdec : (decide (joinAmp ps ≠ "")) = true := by simpa using hne
          rw [hdec]
          simp only [if_true, cond_true]
          cases hfe : (pss.map joinAmp).filter (fun s => s ≠ "") with
          | nil =>
              have hflat : pss.flatten = [] := by
                apply flatten_eq_nil_of_all_nil
                intro qs hqs
                by_contra hqsne
                have hj : joinAmp qs ≠ "" :=
                  joinAmp_ne_empty qs hqsne (hrest qs hqs)
                have : joinAmp qs ∈ (pss.map joinAmp).filter (fun s => s ≠ "") := by
                  rw [List.mem_filter]
                  exact ⟨List.mem_map.2 ⟨qs, hqs, rfl⟩, by simpa using hj⟩
                rw [hfe] at this
                exact absurd this (List.not_mem_nil _)
              rw [hflat, List.append_nil]
              rfl
          | cons f fs =>
              have hfil : (pss.map joinAmp).filter (fun s => s ≠ "") ≠ [] := by
                rw [hfe]; simp
              have hflatne : pss.flatten ≠ [] := by
                intro hflat
                have : ∀ qs ∈ pss, qs = [] := by
                  intro qs hqs
                  rcases qs with _ | ⟨q, qs'⟩
                  · rfl
                  · exfalso
                    have : q ∈ pss.flatten := by
                      apply List.mem_flatten.2
                      exact ⟨q :: qs', hqs, by simp⟩
                    rw [hflat] at this
                    exact absurd this (List.not_mem_nil _)
                have : (pss.map joinAmp).filter (fun s => s ≠ "") = [] := by
                  rw [List.filter_eq_nil_iff]
                  intro a ha
                  obtain ⟨qs, hqs, rfl⟩ := List.mem_map.1 ha
                  rw [this qs hqs]
                  simp [joinAmp]
                exact hfil this
              rw [← hfe, joinAmp_cons_ne _ _ hfil, ihr,
                joinAmp_append ps pss.flatten (by rw [hpse]; simp) hflatne]

lemma flatten_map_filter_undef (obj : QueryDict) :
    ((obj.filter (fun e => e.2 ≠ QueryValue.undef)).map
      (fun e => pairStrings e.1 (qvConcat e.2))).flatten
    = obj.flatMap (fun e => pairStrings e.1 (qvConcat e.2)) := by
  induction obj with
  | nil => rfl
  | cons e obj ih =>
      by_cases hu : e.2 = QueryValue.undef
      · rw [List.flatMap_cons, List.filter_cons]
        simp only [hu]
        simpa [qvConcat, pairStrings] using ih
      · rw [List.flatMap_cons, List.filter_cons]
        have : (decide (e.2 ≠ QueryValue.undef)) = true := by simpa using hu
        rw [this]
        simpa using ih

lemma toQueryString_eq_spec (obj : QueryDict) :
    toQueryString obj = toQueryStringSpec obj := by
  unfold toQueryString toQueryStringSpec
  have hinner :
      (obj.filter (fun e => e.2 ≠ QueryValue.undef)).map
          (fun e => parse (pairStrings e.1 (qvConcat e.2)))
        = ((obj.filter (fun e => e.2 ≠ QueryValue.undef)).map
            (fun e => pairStrings e.1 (qvConcat e.2))).map joinAmp := by
    rw [List.map_map]
    exact List.map_congr_left fun e _ =>
      parse_eq_joinAmp _ (mem_pairStrings_ne_empty e.1 (qvConcat e.2))
  rw [show parse ((obj.filter (fun e => e.2 ≠ QueryValue.undef)).map
        (fun e => parse (pairStrings e.1 (qvConcat e.2))))
      = joinAmp (((obj.filter (fun e => e.2 ≠ QueryValue.undef)).map
          (fun e => parse (pairStrings e.1 (qvConcat e.2)))).filter
            (fun s => s ≠ "")) from rfl,
    hinner,
    joinAmp_filter_map _ (by
      intro ps hps
      obtain ⟨e, _, rfl⟩ := List.mem_map.1 hps
      exact mem_pairStrings_ne_empty e.1 (qvConcat e.2)),
    flatten_map_filter_undef]

end FetchJSONLib

namespace Counters

lemma firePending_counter (t : Nat) (s : SimState) :
    (firePending t s).counter = s.counter := by
  unfold firePending
  cases s.pending with
  | none => rfl
  | some p => cases p with | mk d c => dsimp only; split <;> rfl

lemma firePending_setCalls (t : Nat) (s : SimState) :
    (firePending t s).setCalls = s.setCalls := by
  unfold firePending
  cases s.pending with
  | none => rfl
  | some p => cases p with | mk d c => dsimp only; split <;> rfl

lemma finishPending_counter (s : SimState) :
    (finishPending s).counter = s.counter := by
  unfold finishPending; cases s.pending <;> rfl

lemma finishPending_setCalls (s : SimState) :
    (finishPending s).setCalls = s.setCalls := by
  unfold finishPending; cases s.pending <;> rfl

lemma runCalls_counter :
    ∀ (calls : List (Nat × CallKind)) (s : SimState),
      (runCalls s calls).counter.value =
        (calls.map Prod.snd).foldl (fun v k => nextValue k v) s.counter.value := by
  intro calls
  induction calls with
  | nil => intro s; rfl
  | cons hd rest ih =>
      intro s
      cases hd with | mk t k =>
      rw [runCalls, ih]
      simp [applyCall, firePending_counter]

lemma runCalls_setCalls :
    ∀ (calls : List (Nat × CallKind)) (s : SimState),
      (runCalls s calls).setCalls =
        s.setCalls ++ (localTrace s.counter.value (calls.map Prod.snd)).map Counter.mk := by
  intro calls
  induction calls with
  | nil => intro s; simp [runCalls, localTrace]
  | cons hd rest ih =>
      intro s
      cases hd with | mk t k =>
      rw [runCalls, ih]
      simp [applyCall, firePending_setCalls, firePending_counter, localTrace]

lemma nextValue_nonneg (k : CallKind) (v : Int) (hv : 0 ≤ v) :
    0 ≤ nextValue k v := by
  cases k with
  | inc => show 0 ≤ v + 1; omega
  | dec => show 0 ≤ if v > 0 then v - 1 else v; split <;> omega

lemma foldl_nonneg :
    ∀ (ks : List CallKind) (v : Int), 0 ≤ v →
      0 ≤ ks.foldl (fun v k => nextValue k v) v := by
  intro ks
  induction ks with
  | nil => intro v hv; exact hv
  | cons k ks ih => intro v hv; exact ih _ (nextValue_nonneg k v hv)

lemma foldl_replicate_inc :
    ∀ (n : Nat) (v : Int),
      (List.replicate n CallKind.inc).foldl (fun v k => nextValue k v) v = v + n := by
  intro n
  induction n with
  | zero => intro v; simp
  | succ n ih =>
      intro v
      rw [List.replicate_succ, List.foldl_cons, ih]
      unfold nextValue
      push_cast
      ring

lemma foldl_replicate_dec :
    ∀ (n : Nat) (w : Int), (n : Int) ≤ w →
      (List.replicate n CallKind.dec).foldl (fun v k => nextValue k v) w = w - n := by
  intro n
  induction n with
  | zero => intro w _; simp
  | succ n ih =>
      intro w hw
      rw [List.replicate_succ, List.foldl_cons]
      push_cast at hw
      have hstep : nextValue CallKind.dec w = w - 1 := by
        show (if w > 0 then w - 1 else w) = w - 1
        rw [if_pos (by omega)]
      rw [hstep, ih (w - 1) (by omega)]
      push_cast
      ring

lemma mem_updateCalls_src :
    ∀ (calls : List (Nat × CallKind)) (s : SimState) (d : Nat) (c : Counter),
      (d, c) ∈ (finishPending (runCalls s calls)).updateCalls →
      (d, c) ∈ s.updateCalls ∨
      ((∃ c', s.pending = some (d, c')) ∧ NotBefore d calls) ∨
      FiresIn d calls := by
  intro calls
  induction calls with
  | nil =>
      intro s d c h
      rw [runCalls] at h
      unfold finishPending at h
      cases hp : s.pending with
      | none => rw [hp] at h; left; exact h
      | some p =>
          cases p with | mk d0 c0 =>
          rw [hp] at h
          dsimp only at h
          rw [List.mem_append, List.mem_singleton] at h
          cases h with
          | inl h => left; exact h
          | inr h =>
              rw [Prod.mk.injEq] at h
              obtain ⟨hd, hc⟩ := h
              right; left
              exact ⟨⟨c0, by rw [hd]⟩, trivial⟩
  | cons hd rest ih =>
      intro s d c h
      cases hd with | mk t k =>
      rw [runCalls] at h
      rcases ih (applyCall t k (firePending t s)) d c h with h1 | ⟨⟨c', hp⟩, hnb⟩ | h3
      · have h1' : (d, c) ∈ (firePending t s).updateCalls := h1
        unfold firePending at h1'
        cases hp : s.pending with
        | none => rw [hp] at h1'; left; exact h1'
        | some p =>
            cases p with | mk d0 c0 =>
            rw [hp] at h1'
            dsimp only at h1'
            by_cases hdt : d0 ≤ t
            · rw [if_pos hdt] at h1'
              dsimp only at h1'
              rw [List.mem_append, List.mem_singleton] at h1'
              cases h1' with
              | inl h1' => left; exact h1'
              | inr h1' =>
                  rw [Prod.mk.injEq] at h1'
                  obtain ⟨hdd, _⟩ := h1'
                  right; left
                  refine ⟨⟨c0, by rw [hdd]⟩, ?_⟩
                  show d ≤ t
                  omega
            · rw [if_neg hdt] at h1'; left; exact h1'
      · have hp' : (applyCall t k (firePending t s)).pending =
            some (t + debounceWindow,
              (⟨nextValue k (firePending t s).counter.value⟩ : Counter)) := rfl
        rw [hp'] at hp
        injection hp with hpeq
        have hdeq : d = t + debounceWindow := (congrArg Prod.fst hpeq).symm
        right; right
        exact Or.inl ⟨hdeq, hnb⟩
      · right; right
        exact Or.inr h3

lemma not_firesIn (d : Nat) :
    ∀ (l : List (Nat × CallKind)),
      (∀ x ∈ l, x.1 + debounceWindow ≠ d) → ¬ FiresIn d l := by
  intro l
  induction l with
  | nil => intro _ h; exact h
  | cons x rest ih =>
      intro hall h
      cases x with | mk t k =>
      have h' : (d = t + debounceWindow ∧ NotBefore d rest) ∨ FiresIn d rest := h
      rcases h' with ⟨hd, _⟩ | h'
      · exact hall (t, k) (by simp) (by rw [hd])
      · exact ih (fun y hy => hall y (by simp [hy])) h'

lemma not_firesIn_superseded :
    ∀ (pre : List (Nat × CallKind)) (t₁ t₂ : Nat) (k₁ k₂ : CallKind)
      (post : List (Nat × CallKind)),
      List.Pairwise (fun a b => a.1 < b.1) (pre ++ (t₁, k₁) :: (t₂, k₂) :: post) →
      t₂ < t₁ + debounceWindow →
      ¬ FiresIn (t₁ + debounceWindow) (pre ++ (t₁, k₁) :: (t₂, k₂) :: post) := by
  intro pre
  induction pre with
  | nil =>
      intro t₁ t₂ k₁ k₂ post hpw hlt h
      rw [List.nil_append] at hpw h
      have h' : (t₁ + debounceWindow = t₁ + debounceWindow ∧
          NotBefore (t₁ + debounceWindow) ((t₂, k₂) :: post)) ∨
          FiresIn (t₁ + debounceWindow) ((t₂, k₂) :: post) := h
      rcases h' with ⟨_, hnb⟩ | h'
      · have : t₁ + debounceWindow ≤ t₂ := hnb
        omega
      · have hgt := (List.pairwise_cons.1 hpw).1
        exact not_firesIn _ _
          (fun x hx => by have := hgt x hx; omega) h'
  | cons p pre ih =>
      intro t₁ t₂ k₁ k₂ post hpw hlt h
      cases p with | mk tp kp =>
      rw [List.cons_append] at hpw h
      have h' : (t₁ + debounceWindow = tp + debounceWindow ∧
          NotBefore (t₁ + debounceWindow) (pre ++ (t₁, k₁) :: (t₂, k₂) :: post)) ∨
          FiresIn (t₁ + debounceWindow) (pre ++ (t₁, k₁) :: (t₂, k₂) :: post) := h
      have hpair := List.pairwise_cons.1 hpw
      rcases h' with ⟨hd, _⟩ | h'
      · have : tp < t₁ := hpair.1 (t₁, k₁) (by simp)
        omega
      · exact ih t₁ t₂ k₁ k₂ post hpair.2 hlt h'

end Counters

open Counters in
/-- Claim C1: for every sequence of use-case calls in which a later call
arrives before the 500ms debounce window of an earlier call elapses, the
earlier scheduled remote persistence is superseded and never executed; in
particular, for increments at t=0 and t=400ms with no further calls,
`store.updateCounter` is invoked exactly once, at t=900ms, carrying the value
after both increments. -/
theorem claimC1_debounce_supersedes :
    (∀ (v : Int) (pre post : List (Nat × CallKind)) (t₁ t₂ : Nat) (k₁ k₂ : CallKind),
      List.Pairwise (fun a b => a.1 < b.1) (pre ++ (t₁, k₁) :: (t₂, k₂) :: post) →
      t₂ < t₁ + debounceWindow →
      ∀ c : Counter,
        (t₁ + debounceWindow, c) ∉
          (runTrace v (pre ++ (t₁, k₁) :: (t₂, k₂) :: post)).updateCalls) ∧
    (∀ v : Int,
      (runTrace v [(0, .inc), (400, .inc)]).updateCalls = [(900, ⟨v + 2⟩)]) := by
  constructor
  · intro v pre post t₁ t₂ k₁ k₂ hpw hlt c hmem
    rcases mem_updateCalls_src _ (initState v) _ _ hmem with h | ⟨⟨c', hp⟩, _⟩ | h
    · exact absurd h (List.not_mem_nil _)
    · exact Option.noConfusion hp
    · exact not_firesIn_superseded pre t₁ t₂ k₁ k₂ post hpw hlt h
  · intro v
    show (finishPending (runCalls (initState v) [(0, .inc), (400, .inc)])).updateCalls
        = [(900, ⟨v + 2⟩)]
    simp only [runCalls, applyCall, firePending, finishPending, initState,
      nextValue, debounceWindow]
    norm_num
    ring

open Counters in
/-- Claim C1 witness: the persistence scheduled by the increment at t=0 (due
at t=500) never executes when a second increment arrives at t=400. -/
theorem claimC1_witness :
    (500, (⟨1⟩ : Counter)) ∉
      (runTrace 0 ([] ++ (0, CallKind.inc) :: (400, CallKind.inc) :: [])).updateCalls :=
  claimC1_debounce_supersedes.1 0 [] [] 0 400 .inc .inc (by decide) (by decide) ⟨1⟩

open Counters in
/-- Claim C2: for every n and every valid starting counter value, n
increments followed by n decrements return the store's counter to its
original value, and `store.setCounter` is invoked synchronously on every call
with the new value, independently of timing and of pending remote writes. -/
theorem claimC2_roundtrip :
    ∀ (n : Nat) (v : Int) (calls : List (Nat × CallKind)),
      0 ≤ v →
      calls.map Prod.snd =
        List.replicate n CallKind.inc ++ List.replicate n CallKind.dec →
      (runTrace v calls).counter.value = v ∧
      (runTrace v calls).setCalls =
        (localTrace v (calls.map Prod.snd)).map Counter.mk := by
  intro n v calls hv hmap
  constructor
  · show (finishPending (runCalls (initState v) calls)).counter.value = v
    rw [finishPending_counter, runCalls_counter, hmap, List.foldl_append,
      foldl_replicate_inc]
    rw [show (initState v).counter.value = v from rfl]
    rw [foldl_replicate_dec n (v + n) (by omega)]
    ring
  · show (finishPending (runCalls (initState v) calls)).setCalls = _
    rw [finishPending_setCalls, runCalls_setCalls]
    rfl

open Counters in
/-- Claim C2 witness: one increment then one decrement from value 1 restores
the counter, with both synchronous local updates logged. -/
theorem claimC2_witness :
    (runTrace 1 [(0, CallKind.inc), (10, CallKind.dec)]).counter.value = 1 ∧
    (runTrace 1 [(0, CallKind.inc), (10, CallKind.dec)]).setCalls =
      (localTrace 1 ([(0, CallKind.inc), (10, CallKind.dec)].map Prod.snd)).map
        Counter.mk :=
  claimC2_roundtrip 1 1 [(0, .inc), (10, .dec)] (by decide) (by decide)

open Counters in
/-- Claim C3: the invariant `0 ≤ value` is preserved by every run of the use
cases; decrementing a store whose counter is 0 leaves the value at 0; and
`canDecrement`, derived as `value > 0`, is false exactly when the (valid)
value is 0. -/
theorem claimC3_invariant :
    (∀ (v : Int) (calls : List (Nat × CallKind)), 0 ≤ v →
      0 ≤ (runTrace v calls).counter.value) ∧
    (∀ (t : Nat) (s : SimState), s.counter.value = 0 →
      (decrementCounterUseCase t s).counter.value = 0) ∧
    (∀ c : Counter, 0 ≤ c.value → (canDecrement c = false ↔ c.value = 0)) := by
  refine ⟨?_, ?_, ?_⟩
  · intro v calls hv
    show 0 ≤ (finishPending (runCalls (initState v) calls)).counter.value
    rw [finishPending_counter, runCalls_counter]
    exact foldl_nonneg _ _ hv
  · intro t s h
    show nextValue CallKind.dec s.counter.value = 0
    rw [h]
    rfl
  · intro c hc
    unfold canDecrement
    constructor
    · intro h
      have := of_decide_eq_false h
      omega
    · intro h
      rw [h]
      rfl

open Counters in
/-- Claim C3 witness: concrete instances of all three parts at value 0. -/
theorem claimC3_witness :
    (0 ≤ (runTrace 0 [(0, CallKind.dec)]).counter.value) ∧
    (decrementCounterUseCase 0 (initState 0)).counter.value = 0 ∧
    (canDecrement ⟨0⟩ = false ↔ (0 : Int) = 0) :=
  ⟨claimC3_invariant.1 0 [(0, .dec)] (by decide),
   claimC3_invariant.2.1 0 (initState 0) rfl,
   claimC3_invariant.2.2 ⟨0⟩ (by decide)⟩

/-- Claim C4: `toQueryString` percent-encodes keys and values, joins
`key=value` pairs with `&`, expands list values in order, omits `undefined`
entries, and maps the empty dictionary to the empty string; with the three
concrete examples from the claim. -/
theorem claimC4_toQueryString :
    (∀ obj : FetchJSONLib.QueryDict,
        FetchJSONLib.toQueryString obj = FetchJSONLib.toQueryStringSpec obj) ∧
    FetchJSONLib.toQueryString [] = "" ∧
    FetchJSONLib.toQueryString [("a", .str "1"), ("b", .list ["2", "3"])] = "a=1&b=2&b=3" ∧
    FetchJSONLib.toQueryString [("a", .str "x"), ("b", .undef)] = "a=x" :=
  ⟨FetchJSONLib.toQueryString_eq_spec, by decide, by decide, by decide⟩

open FetchJSONLib in
/-- Claim C5: when the timeout is a positive number and the underlying fetch
has not settled by the time the timer fires, `fetchJSON` rejects with the
distinguished "took too long" error carrying status 408; the outcome is the
same whatever the uncancelled underlying call later does. -/
theorem claimC5_timeout :
    ∀ (t : Int) (net : NetworkBehavior),
      0 < t →
      (∀ d o, net = NetworkBehavior.settles d o → t ≤ (d : Int)) →
      fetchJSONOutcome (some t) net =
        some (.rejected
          { message := "Request take too long to complete"
            status := 408
            statusText := "Request timeout" }) := by
  intro t net h1 h2
  cases net with
  | settles d o =>
      have hd := h2 d o rfl
      simp [fetchJSONOutcome, raceResult, buildFetchJSONError,
        ERRORS.TAKE_TOO_LONG, ERRORS.TIME_OUT, h1, hd]
  | hangs =>
      simp [fetchJSONOutcome, raceResult, buildFetchJSONError,
        ERRORS.TAKE_TOO_LONG, ERRORS.TIME_OUT, h1]

open FetchJSONLib in
/-- Claim C5 witness: `timeoutMs = 1000` against a server that never responds
rejects with the TimedOut error carrying status 408. -/
theorem claimC5_witness :
    fetchJSONOutcome (some 1000) NetworkBehavior.hangs =
      some (.rejected
        { message := "Request take too long to complete"
          status := 408
          statusText := "Request timeout" }) :=
  claimC5_timeout 1000 .hangs (by decide) (fun d o h => nomatch h)

open FetchJSONLib in
/-- Claim C6: a response whose status is not in the 2xx range makes
`fetchJSON` reject with an error carrying the response's status and
statusText and the body text as message — it never resolves. -/
theorem claimC6_httpError :
    ∀ (r : HttpResponse) (d : Nat),
      ¬(200 ≤ r.status ∧ r.status ≤ 299) →
      fetchJSONOutcome none (.settles d (.ok r)) =
        some (.rejected
          { message := r.bodyText, status := r.status, statusText := r.statusText }) := by
  intro r d h
  have hok : r.ok = false := by
    simp only [HttpResponse.ok]
    simp only [Bool.and_eq_false_iff, decide_eq_false_iff_not]
    omega
  simp [fetchJSONOutcome, raceResult, handleResponse, hok, buildFetchJSONError]

open FetchJSONLib in
/-- Claim C6 witness: a 401 response rejects with an error whose `status`
field equals 401. -/
theorem claimC6_witness :
    fetchJSONOutcome none (.settles 0 (.ok
      { status := 401, statusText := "Unauthorized", bodyText := ""
        jsonBody := none, contentType := none })) =
      some (.rejected
        { message := "", status := 401, statusText := "Unauthorized" }) :=
  claimC6_httpError
    { status := 401, statusText := "Unauthorized", bodyText := ""
      jsonBody := none, contentType := none } 0 (by decide)

open FetchJSONLib in
/-- Claim C7: on a 2xx response `fetchJSON` inspects the `content-type`
header — a JSON content type parses the body as JSON, any other (or absent)
content type yields the body text — and resolves with the response augmented
by `parsedBody`; in particular a `text/xml` response with body
`"<Message></Message>"` resolves with that exact text. -/
theorem claimC7_parsedBody :
    (∀ (r : HttpResponse) (d : Nat), r.ok = true → r.isJsonType = false →
      fetchJSONOutcome none (.settles d (.ok r)) =
        some (.resolved r (.text r.bodyText))) ∧
    (∀ (r : HttpResponse) (d : Nat) (v : JSONValue),
      r.ok = true → r.isJsonType = true → r.jsonBody = some v →
      fetchJSONOutcome none (.settles d (.ok r)) =
        some (.resolved r (.json v))) ∧
    fetchJSONOutcome none
        (.settles 0 (.ok
          { status := 200, statusText := "OK"
            bodyText := "<Message></Message>"
            jsonBody := none, contentType := some "text/xml" })) =
      some (.resolved
        { status := 200, statusText := "OK"
          bodyText := "<Message></Message>"
          jsonBody := none, contentType := some "text/xml" }
        (.text "<Message></Message>")) := by
  refine ⟨?_, ?_, ?_⟩
  · intro r d hok hjson
    simp [fetchJSONOutcome, raceResult, handleResponse, hok, hjson]
  · intro r d v hok hjson hbody
    simp [fetchJSONOutcome, raceResult, handleResponse, hok, hjson, hbody]
  · rfl

open FetchJSONLib in
/-- Claim C7 witness: the `text/xml` example, through the general non-JSON
branch of the claim. -/
theorem claimC7_witness :
    fetchJSONOutcome none
        (.settles 5 (.ok
          { status := 200, statusText := "OK"
            bodyText := "<Message></Message>"
            jsonBody := none, contentType := some "text/xml" })) =
      some (.resolved
        { status := 200, statusText := "OK"
          bodyText := "<Message></Message>"
          jsonBody := none, contentType := some "text/xml" }
        (.text "<Message></Message>")) :=
  claimC7_parsedBody.1
    { status := 200, statusText := "OK"
      bodyText := "<Message></Message>"
      jsonBody := none, contentType := some "text/xml" } 5 rfl rfl

open FetchJSONLib in
/-- Claim C8: a body present as structured data (an object or array, which is
always truthy) forces the method to POST unless explicitly overridden,
serializes the body with `JSON.stringify`, and sets a
`Content-Type: application/json` header (visible whenever the caller's custom
headers do not override that key). -/
theorem claimC8_structuredBody :
    ∀ (p : FetchJSONProps) (v : JSONValue),
      p.body = some v → v.isStructured = true →
      (buildConfig p).body = some v.stringify ∧
      (buildConfig p).method = p.method.getD "POST" ∧
      (p.headers.all (fun h => h.1 ≠ "Content-Type") = true →
        ("Content-Type", "application/json") ∈ (buildConfig p).headers) := by
  intro p v hbody hstruct
  have htr : v.truthy = true := by
    cases v <;> simp_all [JSONValue.isStructured, JSONValue.truthy]
  refine ⟨?_, ?_, ?_⟩
  · simp [buildConfig, hbody, htr]
  · simp [buildConfig, hbody, htr]
  · intro hall
    simp only [buildConfig, hbody, htr, mergeHeaders, builtHeaders]
    rw [List.mem_append]
    left
    rw [List.mem_filter]
    constructor
    · cases p.token <;> simp
    · simpa using hall

open FetchJSONLib in
/-- Claim C8 witness: the structured body `{three: "four"}` is serialized,
the method is POST, and the JSON content-type header is present. -/
theorem claimC8_witness :
    (buildConfig { body := some (.obj [("three", .str "four")]) }).body =
        some (JSONValue.obj [("three", .str "four")]).stringify ∧
    (buildConfig { body := some (.obj [("three", .str "four")]) }).method = "POST" ∧
    ("Content-Type", "application/json") ∈
      (buildConfig { body := some (.obj [("three", .str "four")]) }).headers :=
  have h := claimC8_structuredBody
    { body := some (.obj [("three", .str "four")]) }
    (.obj [("three", .str "four")]) rfl rfl
  ⟨h.1, h.2.1, h.2.2 rfl⟩

open Counters in
/-- Claim C9: the simulated remote service delays every operation by a fixed
1000ms; `getCounter()` resolves with a Counter holding the stored count,
`updateCounter(c)` stores `c.value` and resolves with it, so a subsequent
`getCounter()` observes `c.value`. -/
theorem claimC9_counterService :
    ∀ (count : Int) (c : Counter),
      (CounterService.getCounter count).delayMs = 1000 ∧
      (CounterService.getCounter count).resolved.value = count ∧
      (CounterService.getCounter count).newCount = count ∧
      (CounterService.updateCounter c count).delayMs = 1000 ∧
      (CounterService.updateCounter c count).newCount = c.value ∧
      (CounterService.updateCounter c count).resolved.value = c.value ∧
      (CounterService.getCounter
        ((CounterService.updateCounter c count).newCount)).resolved.value = c.value :=
  fun _ _ => ⟨rfl, rfl, rfl, rfl, rfl, rfl, rfl⟩

open FetchJSONLib in
/-- Claim C10: a falsy body (`null`, `0`, `false` or `""` — exactly the falsy
JSON values) is not serialized, adds no `Content-Type` header, and leaves the
default method at GET, because the source tests presence by truthiness. -/
theorem claimC10_falsyBody :
    (∀ (p : FetchJSONProps) (v : JSONValue),
      p.body = some v → v.truthy = false →
      (buildConfig p).body = none ∧
      (buildConfig p).method = p.method.getD "GET" ∧
      (p.headers.all (fun h => h.1 ≠ "Content-Type") = true →
        ∀ val, ("Content-Type", val) ∉ (buildConfig p).headers)) ∧
    (∀ w : JSONValue, w.truthy = false ↔
      (w = .null ∨ w = .bool false ∨ w = .num 0 ∨ w = .str "")) := by
  constructor
  · intro p v hbody htr
    refine ⟨?_, ?_, ?_⟩
    · simp [buildConfig, hbody, htr]
    · simp [buildConfig, hbody, htr]
    · intro hall val hmem
      simp only [buildConfig, hbody, htr, mergeHeaders, builtHeaders] at hmem
      rw [List.mem_append] at hmem
      cases hmem with
      | inl hmem =>
          rw [List.mem_filter] at hmem
          have hmem1 := hmem.1
          simp only [Bool.false_eq_true, if_false, List.append_nil] at hmem1
          cases htok : p.token with
          | none => rw [htok] at hmem1; exact absurd hmem1 (List.not_mem_nil _)
          | some tk =>
              rw [htok] at hmem1
              rw [List.mem_singleton] at hmem1
              have : "Content-Type" = "Authorization" := congrArg Prod.fst hmem1
              exact absurd this (by decide)
      | inr hmem =>
          have := List.all_eq_true.1 hall _ hmem
          simp at this
  · intro w
    cases w <;> simp [JSONValue.truthy]

open FetchJSONLib in
/-- Claim C10 witness: a body of `0` is dropped, the method stays GET, and no
JSON content-type header is added. -/
theorem claimC10_witness :
    (buildConfig { body := some (.num 0) }).body = none ∧
    (buildConfig { body := some (.num 0) }).method = "GET" ∧
    ("Content-Type", "application/json") ∉
      (buildConfig { body := some (.num 0) }).headers :=
  have h := claimC10_falsyBody.1 { body := some (.num 0) } (.num 0) rfl rfl
  ⟨h.1, h.2.1, h.2.2 rfl "application/json"⟩
